import Mathlib

/-!
Verification development for the HR ID-card generator (src/app.py).

The per-record card composition pipeline is embedded shallowly:

* Strings are Lean strings; the Python string primitives the code uses
  (split on a newline, strip, lower, pathlib stem/suffix) are reimplemented
  over character lists so every definition evaluates by kernel reduction.
* A PIL image that the pipeline only moves around (a decoded photo or
  barcode raster) is a descriptor `PImg` carrying an identifier and its size.
* The card surface is an `Img`: the template descriptor together with the
  ordered log of drawing operations applied to its own pixel buffer.  PIL
  primitives (`draw.text`, `Image.paste`) append to that log; their pixel
  rasterisation lives inside PIL and is not part of the repository.
* Fallible library calls (`Image.open`, the Code128 constructor, the barcode
  writer) are fields of an `Env` returning `Except`, so that the exception
  paths of app.py become explicit error values.
* The third-party text shaping functions (`arabic_reshaper.reshape`,
  `bidi.algorithm.get_display`) are not repository code; they are modelled
  from the spec where noted.
-/

namespace HRCards

/-! ### String helpers mirroring the Python primitives used by app.py -/

/-- Mirrors Python str.split on the single separator "\n": splitting the
empty string yields one empty piece, and a separator at either end yields an
empty piece on that side. -/
def splitLines : List Char → List (List Char)
  | [] => [[]]
  | c :: cs =>
    if c = '\n' then [] :: splitLines cs
    else
      match splitLines cs with
      | [] => [[c]]
      | l :: ls => (c :: l) :: ls

/-- Python `str(text).split("\n")` as used by draw_aligned_text. -/
def pySplitNl (s : String) : List String :=
  (splitLines s.toList).map (fun l => String.mk l)

/-- Mirrors Python str.strip: whitespace removed from both ends. -/
def pyStrip (s : String) : String :=
  String.mk (((s.toList.dropWhile Char.isWhitespace).reverse.dropWhile
    Char.isWhitespace).reverse)

/-- Mirrors Python str.lower on the ASCII names handled by the resolver. -/
def lowerStr (s : String) : String :=
  String.mk (s.toList.map Char.toLower)

/-- Index of the last '.' in a character list, as Python str.rfind('.')
restricted to the found case. -/
def rfindDot : List Char → Option Nat
  | [] => none
  | c :: cs =>
    match rfindDot cs with
    | some i => some (i + 1)
    | none => if c = '.' then some 0 else none

/-- Mirrors pathlib PurePath.stem on a bare file name: the name without its
final extension; a dot at index 0 or in the last position does not start an
extension (CPython: `0 < i < len(name) - 1`). -/
def pathStem (name : String) : String :=
  let cs := name.toList
  match rfindDot cs with
  | some i => if 0 < i ∧ i < cs.length - 1 then String.mk (cs.take i) else name
  | none => name

/-- Mirrors pathlib PurePath.suffix on a bare file name, with the same
boundary rule as `pathStem`. -/
def pathSuffix (name : String) : String :=
  let cs := name.toList
  match rfindDot cs with
  | some i => if 0 < i ∧ i < cs.length - 1 then String.mk (cs.drop i) else ""
  | none => ""

/-- Last component of a slash-separated path, as pathlib reads the file name
out of a joined path before taking its suffix. -/
def baseName (p : String) : String :=
  String.mk ((p.toList.reverse.takeWhile (fun c => c != '/')).reverse)

/-! ### Text shaping (third-party libraries, modelled from the spec) -/

/-- Character belongs to a right-to-left script block (Hebrew, Arabic, and
the Arabic presentation-form blocks). -/
def isRTLChar (c : Char) : Bool :=
  decide ((0x590 ≤ c.toNat ∧ c.toNat ≤ 0x8FF) ∨
    (0xFB1D ≤ c.toNat ∧ c.toNat ≤ 0xFDFF) ∨
    (0xFE70 ≤ c.toNat ∧ c.toNat ≤ 0xFEFF))

/-- Character is one of the Unicode bidirectional control characters. -/
def isBidiControl (c : Char) : Bool :=
  decide (c.toNat = 0x200E ∨ c.toNat = 0x200F ∨
    (0x202A ≤ c.toNat ∧ c.toNat ≤ 0x202E) ∨
    (0x2066 ≤ c.toNat ∧ c.toNat ≤ 0x2069))

/-- Modelled from the spec: arabic_reshaper.reshape performs contextual
glyph-form reshaping for connected scripts (the library is outside this
repository).  The model sends each Arabic base letter to a codepoint in the
Arabic Presentation Forms block and leaves every other character unchanged. -/
def presentationForm (c : Char) : Char :=
  if 0x621 ≤ c.toNat ∧ c.toNat ≤ 0x64A then Char.ofNat (0xFE80 + (c.toNat - 0x621))
  else c

/-- Modelled from the spec: the reshaping pass of the Text Shaper; characters
outside right-to-left scripts are not touched. -/
def reshape (s : String) : String :=
  String.mk (s.toList.map (fun c => if isRTLChar c then presentationForm c else c))

/-- Modelled from the spec: bidi.algorithm.get_display reorders logical text
into visual order (the library is outside this repository).  A string with no
right-to-left character is already in visual order and is returned unchanged;
a string containing right-to-left characters is reordered, modelled here by
reversal. -/
def get_display (s : String) : String :=
  if s.toList.any isRTLChar then String.mk s.toList.reverse else s

/-- Embedding of prepare_text (app.py lines 88-92).  A Python None argument is
the `none` case; `if not text` is the empty-or-none test. -/
def prepare_text : Option String → String
  | none => ""
  | some text => if text = "" then "" else get_display (reshape text)

/-! ### Fonts, image descriptors and drawing operations -/

/-- A loaded font, observed through the only measurement the code takes from
it: the glyph bounding-box height `bbox[3] - bbox[1]` that draw.textbbox
reports for a string. -/
structure Font where
  bboxH : String → Nat

/-- Descriptor of a decoded raster handled opaquely by the pipeline (a photo
or a barcode image): an identifier for its source pixels plus its size. -/
structure PImg where
  srcId : Nat
  w : Nat
  h : Nat
deriving DecidableEq

/-- One mutation of a card surface: a draw.text call or an Image.paste. -/
inductive DrawOp where
  | text (pos : Int × Int) (line : String) (fill : String) (anchorStr : String) : DrawOp
  | paste (img : PImg) (pos : Nat × Nat) : DrawOp
deriving DecidableEq

/-- Vertical coordinate of a drawing operation. -/
def DrawOp.yPos : DrawOp → Int
  | .text p _ _ _ => p.2
  | .paste _ p => (p.2 : Int)

/-- Drawn line of a text operation (empty for a paste). -/
def DrawOp.lineOf : DrawOp → String
  | .text _ l _ _ => l
  | .paste _ _ => ""

/-- A card surface (or the template): the base raster identified by `srcId`
with its size, together with the ordered log of operations applied to its own
pixel buffer.  `template.copy()` is value copying; drawing on a card appends
to `ops` of that card only. -/
structure Img where
  srcId : Nat
  w : Nat
  h : Nat
  ops : List DrawOp
deriving DecidableEq

/-! ### Layout constants (app.py lines 24-33) -/

def PHOTO_POS : Nat × Nat := (111, 168)

def PHOTO_SIZE : Nat × Nat := (300, 300)

def BARCODE_POS : Nat × Nat := (570, 465)

def BARCODE_SIZE : Nat × Nat := (390, 120)

def NAME_OFFSET_X : Int := -40

def NAME_OFFSET_Y : Int := -20

/-! ### Text layout and renderer (app.py lines 95-109) -/

/-- Tail of the line loop of draw_aligned_text: for every line after the
first, the code measures the bounding box of that line and advances y by its
height before drawing (`y += bbox[3] - bbox[1]`). -/
def drawRestLines (font : Font) (x : Int) (fill anc : String) :
    Int → List String → List DrawOp
  | _, [] => []
  | y, l :: rest =>
    DrawOp.text (x, y + (font.bboxH l : Int)) l fill anc ::
      drawRestLines font x fill anc (y + (font.bboxH l : Int)) rest

/-- Embedding of draw_aligned_text (app.py lines 95-104): no-op on empty
text; otherwise the text is split on newlines, the first line is drawn at the
anchor and each further line is drawn after advancing y by its own measured
height.  The returned list is the sequence of draw.text calls issued. -/
def draw_aligned_text (font : Font) (xy : Int × Int) (text : String)
    (fill anc : String) : List DrawOp :=
  if text = "" then []
  else
    match pySplitNl text with
    | [] => []
    | l :: rest => DrawOp.text xy l fill anc :: drawRestLines font xy.1 fill anc xy.2 rest

/-- Embedding of draw_bold_text (app.py lines 107-109): the same text drawn
four times at offsets (0,0), (1,0), (0,1), (1,1). -/
def draw_bold_text (font : Font) (xy : Int × Int) (text : String)
    (fill anc : String) : List DrawOp :=
  draw_aligned_text font (xy.1, xy.2) text fill anc ++
    draw_aligned_text font (xy.1 + 1, xy.2) text fill anc ++
    draw_aligned_text font (xy.1, xy.2 + 1) text fill anc ++
    draw_aligned_text font (xy.1 + 1, xy.2 + 1) text fill anc

/-! ### Photo fitter geometry (app.py lines 112-124)

The program computes the cover scale with Python floats, that is IEEE binary64
arithmetic.  A positive finite double is a dyadic rational m * 2 ^ e with a
53-bit significand; division and multiplication return the representable value
nearest to the exact result, ties going to the even significand.  The model
below implements exactly that on integers (the values arising here are far
inside the normal range, and the integer dimensions are far below 2 ^ 53, so
no overflow, underflow or int-to-double rounding occurs). -/

/-- A positive finite IEEE binary64 value m * 2 ^ e with 2 ^ 52 ≤ m < 2 ^ 53
(m = 0 standing for the zero value). -/
structure FP where
  m : Nat
  e : Int
deriving DecidableEq

/-- Number of binary digits of n, via an explicit fuel argument so that the
kernel can evaluate it (n itself is enough fuel). -/
def bitlenAux : Nat → Nat → Nat
  | 0, _ => 0
  | fuel + 1, n => if n = 0 then 0 else bitlenAux fuel (n / 2) + 1

def bitlen (n : Nat) : Nat := bitlenAux n n

/-- Round the positive integer significand q, carrying a sticky flag for any
discarded remainder below it, to 53 binary digits, to nearest with ties to
even; returns the rounded significand and the number of digits dropped. -/
def round53 (q : Nat) (sticky : Bool) : Nat × Nat :=
  let b := bitlen q
  if b ≤ 53 then (q, 0)
  else
    let k := b - 53
    let m0 := q / 2 ^ k
    let rem := q % 2 ^ k
    let half := 2 ^ (k - 1)
    let up :=
      if rem > half then true
      else if rem < half then false
      else if sticky then true else m0 % 2 = 1
    let m1 := if up then m0 + 1 else m0
    if m1 = 2 ^ 53 then (2 ^ 52, k + 1) else (m1, k)

/-- IEEE binary64 division of two Python ints, as CPython true division
performs it: the double nearest to the exact quotient num / den, ties to even.
A zero operand yields the zero value (the program never divides by a zero
dimension without raising first). -/
def fpDiv (num den : Nat) : FP :=
  if num = 0 ∨ den = 0 then ⟨0, 0⟩
  else
    let S := bitlen den + 64
    let N := num * 2 ^ S
    let q := N / den
    let r := N % den
    let p := round53 q (r != 0)
    ⟨p.1, (p.2 : Int) - S⟩

/-- IEEE binary64 product of the integer a (exactly representable: image
dimensions are far below 2 ^ 53) and the double x, rounded to nearest, ties
to even. -/
def fpMulNat (a : Nat) (x : FP) : FP :=
  if a = 0 ∨ x.m = 0 then ⟨0, 0⟩
  else
    let p := round53 (a * x.m) false
    ⟨p.1, x.e + p.2⟩

/-- Comparison of two nonnegative doubles by their exact values. -/
def fpLe (x y : FP) : Bool :=
  if x.e ≤ y.e then decide (x.m ≤ y.m * 2 ^ (y.e - x.e).toNat)
  else decide (x.m * 2 ^ (x.e - y.e).toNat ≤ y.m)

/-- Python max(a, b) on two doubles: b when a < b, else a (equal doubles share
one representation, so the tie choice is immaterial). -/
def fpMax (x y : FP) : FP := if fpLe y x then x else y

/-- Python int() applied to a nonnegative double: truncation toward zero. -/
def fpTrunc (x : FP) : Nat :=
  if 0 ≤ x.e then x.m * 2 ^ x.e.toNat else x.m / 2 ^ (-x.e).toNat

/-- `scale = max(tw / iw, th / ih)` of resize_and_center_crop, in the IEEE
double arithmetic Python uses. -/
def coverScale (iw ih tw th : ℕ) : FP := fpMax (fpDiv tw iw) (fpDiv th ih)

/-- `new_w = int(iw * scale)` in IEEE double arithmetic. -/
def coverNewW (iw ih tw th : ℕ) : ℕ := fpTrunc (fpMulNat iw (coverScale iw ih tw th))

/-- `new_h = int(ih * scale)` in IEEE double arithmetic. -/
def coverNewH (iw ih tw th : ℕ) : ℕ := fpTrunc (fpMulNat ih (coverScale iw ih tw th))

/-- `left = (new_w - tw) // 2` (Python floor division on ints). -/
def cropLeft (iw ih tw th : ℕ) : ℤ :=
  Int.fdiv ((coverNewW iw ih tw th : ℤ) - tw) 2

/-- `top = (new_h - th) // 2` (Python floor division on ints). -/
def cropTop (iw ih tw th : ℕ) : ℤ :=
  Int.fdiv ((coverNewH iw ih tw th : ℤ) - th) 2

/-- Python int() on an exact rational value: truncation toward zero.  Used by
the ideal reading of the fitter below. -/
def pyInt (q : ℚ) : ℤ := if 0 ≤ q then ⌊q⌋ else ⌈q⌉

/-- The spec's exact-arithmetic reading of the cover scale — the real number
max(tw / iw, th / ih) — stated to compare the program's float computation
with the claim's intended geometry. -/
def coverScaleIdeal (iw ih tw th : ℕ) : ℚ :=
  max ((tw : ℚ) / (iw : ℚ)) ((th : ℚ) / (ih : ℚ))

/-- `int(iw * scale)` under the ideal exact-arithmetic scale. -/
def coverNewWIdeal (iw ih tw th : ℕ) : ℤ :=
  pyInt ((iw : ℚ) * coverScaleIdeal iw ih tw th)

/-- `int(ih * scale)` under the ideal exact-arithmetic scale. -/
def coverNewHIdeal (iw ih tw th : ℕ) : ℤ :=
  pyInt ((ih : ℚ) * coverScaleIdeal iw ih tw th)

/-- The left crop offset under the ideal exact-arithmetic scale. -/
def cropLeftIdeal (iw ih tw th : ℕ) : ℤ :=
  Int.fdiv (coverNewWIdeal iw ih tw th - tw) 2

/-- The top crop offset under the ideal exact-arithmetic scale. -/
def cropTopIdeal (iw ih tw th : ℕ) : ℤ :=
  Int.fdiv (coverNewHIdeal iw ih tw th - th) 2

/-- Embedding of resize_and_center_crop at the descriptor level: the RGB
conversion does not change the descriptor; a zero-sized source raises
ZeroDivisionError in `tw / iw`; otherwise the image is scaled by `coverScale`
and cropped to the box `(cropLeft, cropTop, cropLeft + tw, cropTop + th)`,
and a PIL crop returns an image of exactly the requested box size. -/
def resize_and_center_crop (img : PImg) (target : Nat × Nat) : Except String PImg :=
  if img.w = 0 ∨ img.h = 0 then Except.error "ZeroDivisionError"
  else Except.ok { srcId := img.srcId, w := target.1, h := target.2 }

/-! ### Photo resolver (app.py lines 127-140) -/

/-- One file found by os.walk: the directory it sits in and its bare name,
listed in walk order. -/
structure FileEntry where
  dir : String
  name : String
deriving DecidableEq

/-- The extension-priority dictionary of find_photo_path. -/
def extOrder : List (String × Nat) := [(".png", 0), (".jpg", 1), (".jpeg", 2), (".bmp", 3)]

/-- Sort key of one candidate path: `order.get(Path(p).suffix.lower(), 9)`. -/
def extKey (p : String) : Nat :=
  (extOrder.lookup (lowerStr (pathSuffix (baseName p)))).getD 9

/-- Insertion step of a stable sort by `extKey`: the new element goes in
front of the first strictly greater key, hence after every earlier element of
equal key, exactly as Python's stable list.sort orders by key. -/
def insertByKey (a : String) : List String → List String
  | [] => [a]
  | b :: l => if extKey a ≤ extKey b then a :: b :: l else b :: insertByKey a l

/-- Stable sort by `extKey`, mirroring `candidates.sort(key=...)`. -/
def sortByKey : List String → List String
  | [] => []
  | a :: l => insertByKey a (sortByKey l)

/-- The candidate list of find_photo_path: every walked file whose lowered
stem equals the lowered stem of the requested name, joined as `dir/name`. -/
def photoCandidates (files : List FileEntry) (requested : String) : List String :=
  (files.filter
      (fun f => decide (lowerStr (pathStem f.name) = lowerStr (pathStem requested)))).map
    (fun f => f.dir ++ "/" ++ f.name)

/-- Embedding of find_photo_path (app.py lines 127-140): empty request means
not found; otherwise the stem-matching candidates are sorted stably by
extension priority and the first is returned, none when there are none. -/
def find_photo_path (files : List FileEntry) (requested : String) : Option String :=
  if requested = "" then none
  else
    match sortByKey (photoCandidates files requested) with
    | [] => none
    | c :: _ => some c

/-! ### Card compositor (app.py lines 216-285) -/

/-- One input row, the fields the loop reads (already string-coerced; absence
is the empty string). -/
structure Record where
  name : String
  job : String
  num : String
  national_id : String
  photo : String
deriving DecidableEq

/-- The external collaborators of the loop.  `photos_root` is the walked file
list when a photo root is available; `openImage`, `code128New`,
`barcodeWrite` and `imgOpenBuf` are the fallible library calls of the photo
and barcode blocks, returning the exception message on failure. -/
structure Env where
  font_ar : Font
  photos_root : Option (List FileEntry)
  pathExists : String → Bool
  openImage : String → Except String PImg
  code128New : String → Except String Nat
  barcodeWrite : Nat → Except String Nat
  imgOpenBuf : Nat → Except String PImg

/-- Embedding of the photo block (app.py lines 251-266): resolve, check
existence, open, fit, paste; every failure leaves the card as it was and
yields a warning. -/
def photoBlock (env : Env) (card : Img) (rawName filename : String) :
    Img × List String :=
  match env.photos_root with
  | none => (card, ["⚠️ photos_root not available."])
  | some files =>
    match find_photo_path files filename with
    | some p =>
      if env.pathExists p then
        match env.openImage p with
        | Except.error e =>
          (card, ["⚠️ Failed to place photo for '" ++ rawName ++ "': " ++ e])
        | Except.ok pimg0 =>
          match resize_and_center_crop pimg0 PHOTO_SIZE with
          | Except.error e =>
            (card, ["⚠️ Failed to place photo for '" ++ rawName ++ "': " ++ e])
          | Except.ok pimg =>
            ({ card with ops := card.ops ++ [DrawOp.paste pimg PHOTO_POS] }, [])
      else
        (card, ["📷 Photo not found for '" ++ rawName ++ "'. Requested: " ++ filename])
    | none =>
      (card, ["📷 Photo not found for '" ++ rawName ++ "'. Requested: " ++ filename])

/-- The barcode production pipeline of the try block (app.py lines 271-276):
Code128 construction, writing to the buffer, decoding the produced image,
then the RGB conversion and the resize to the fixed barcode slot.  An
exception at any stage is the corresponding error value. -/
def barcodePipeline (env : Env) (nid : String) : Except String PImg :=
  match env.code128New nid with
  | Except.error e => Except.error e
  | Except.ok obj =>
    match env.barcodeWrite obj with
    | Except.error e => Except.error e
    | Except.ok buf =>
      match env.imgOpenBuf buf with
      | Except.error e => Except.error e
      | Except.ok bimg =>
        Except.ok { srcId := bimg.srcId, w := BARCODE_SIZE.1, h := BARCODE_SIZE.2 }

/-- Embedding of the barcode block (app.py lines 268-282): an empty national
identifier skips the barcode with a warning; otherwise the pipeline runs and
only a fully produced, resized barcode is pasted; any error leaves the card
as it was and yields a warning. -/
def barcodeBlock (env : Env) (card : Img) (rawName nid : String) :
    Img × List String :=
  if nid = "" then
    (card, ["🧾 National ID missing for '" ++ rawName ++ "'. Skipped barcode."])
  else
    match barcodePipeline env nid with
    | Except.ok bimg =>
      ({ card with ops := card.ops ++ [DrawOp.paste bimg BARCODE_POS] }, [])
    | Except.error e =>
      (card, ["⚠️ Failed to generate barcode for '" ++ rawName ++ "': " ++ e])

/-- Embedding of one iteration of the record loop (app.py lines 222-284):
copy the template, draw name, job title and the composed employee-number
label at their stacked anchors, then run the photo block and the barcode
block.  Returns the finished card and the warnings of the degraded steps. -/
def renderCard (env : Env) (template : Img) (row : Record) : Img × List String :=
  let card := template
  let name := prepare_text (some (pyStrip row.name))
  let job := prepare_text (some (pyStrip row.job))
  let num := pyStrip row.num
  let national_id := pyStrip row.national_id
  let filename := pyStrip row.photo
  let name_xy : Int × Int := (915 + NAME_OFFSET_X, 240 + NAME_OFFSET_Y)
  let nameOps := draw_bold_text env.font_ar name_xy name "black" "rt"
  let name_height : Int := (env.font_ar.bboxH name : Int) + 20
  let job_xy : Int × Int := (name_xy.1, name_xy.2 + name_height)
  let jobOps := draw_aligned_text env.font_ar job_xy job "black" "rt"
  let job_height : Int := (env.font_ar.bboxH job : Int) + 25
  let job_id_label := prepare_text (some ("الرقم الوظيفي: " ++ num))
  let id_xy : Int × Int := (name_xy.1, job_xy.2 + job_height)
  let idOps := draw_aligned_text env.font_ar id_xy job_id_label "black" "rt"
  let card := { card with ops := card.ops ++ (nameOps ++ jobOps ++ idOps) }
  let pr := photoBlock env card row.name filename
  let br := barcodeBlock env pr.1 row.name national_id
  (br.1, pr.2 ++ br.2)

/-- The mutable state of the batch: the shared template and the accumulated
cards and warnings. -/
structure BatchState where
  template : Img
  cards : List Img
  warns : List String

/-- One pass of the record loop: render the card from the template and append
it to the batch result, whatever the photo and barcode blocks did. -/
def processRow (env : Env) (s : BatchState) (row : Record) : BatchState :=
  { template := s.template
    cards := s.cards ++ [(renderCard env s.template row).1]
    warns := s.warns ++ (renderCard env s.template row).2 }

/-- The record loop over all rows, in input order. -/
def runBatch (env : Env) (s : BatchState) : List Record → BatchState
  | [] => s
  | r :: rs => runBatch env (processRow env s r) rs

/-- Outcome of the export block: a multi-page artifact or the reported
empty-batch warning. -/
inductive ExportOutcome where
  | artifact (pages : List Img) : ExportOutcome
  | noCards (warning : String) : ExportOutcome
deriving DecidableEq

/-- Embedding of the export block (app.py lines 290-302): with no cards the
warning "No cards generated." is reported and no artifact is attempted; with
cards, page one is `output_cards[0]` and the appended pages are
`output_cards[1:]`, so the page sequence is exactly the batch result. -/
def exportBlock (cards : List Img) : ExportOutcome :=
  match cards with
  | [] => ExportOutcome.noCards "No cards generated."
  | c :: rest => ExportOutcome.artifact (c :: rest)

/-! ### Concrete fixtures used by the witnesses -/

/-- A font whose measured heights distinguish the lines "a" and "b". -/
def fontEx : Font := ⟨fun s => if s = "a" then 10 else 20⟩

/-- A walked photo root holding photo.jpg and photo.png with the same stem,
in walk order. -/
def filesEx : List FileEntry := [⟨"root", "photo.jpg"⟩, ⟨"root", "photo.png"⟩]

/-- A template descriptor. -/
def tmplEx : Img := ⟨0, 1016, 639, []⟩

/-- A card surface used by the barcode witness. -/
def cardEx : Img := ⟨0, 1016, 639, []⟩

/-- A concrete input record. -/
def recEx : Record := ⟨"احمد", "مهندس", "123", "29801011234567", "photo"⟩

/-- A concrete environment: photos resolve against `filesEx`, image reads
succeed, and the Code128 constructor rejects characters outside its
code table. -/
def envEx : Env :=
  { font_ar := fontEx
    photos_root := some filesEx
    pathExists := fun _ => true
    openImage := fun _ => Except.ok ⟨1, 4, 3⟩
    code128New := fun s =>
      if s.toList.all (fun c => c.toNat < 128) then Except.ok 0
      else Except.error "character not in Code 128"
    barcodeWrite := fun b => Except.ok b
    imgOpenBuf := fun _ => Except.ok ⟨2, 436, 233⟩ }

/-! ### Helper lemmas -/

theorem string_mk_toList (s : String) : String.mk s.toList = s := by
  cases s
  rfl

theorem string_length_mk (l : List Char) : (String.mk l).length = l.length := rfl

theorem string_ne_empty_of_length_pos {s : String} (h : 0 < s.length) : s ≠ "" := by
  intro he
  subst he
  simp at h

theorem splitLines_ne_nil : ∀ l : List Char, splitLines l ≠ []
  | [] => by simp [splitLines]
  | c :: cs => by
    unfold splitLines
    by_cases h : c = '\n'
    · simp [h]
    · rw [if_neg h]
      cases hs : splitLines cs <;> simp

theorem pySplitNl_ne_nil (s : String) : pySplitNl s ≠ [] := by
  unfold pySplitNl
  intro h
  rw [List.map_eq_nil_iff] at h
  exact splitLines_ne_nil s.toList h

theorem draw_aligned_text_length_pos (font : Font) (xy : Int × Int)
    (text fill anc : String) (h : text ≠ "") :
    0 < (draw_aligned_text font xy text fill anc).length := by
  unfold draw_aligned_text
  rw [if_neg h]
  cases hp : pySplitNl text with
  | nil => exact absurd hp (pySplitNl_ne_nil text)
  | cons l rest => simp

theorem drawRestLines_length (font : Font) (x : Int) (fill anc : String) :
    ∀ (ls : List String) (y : Int),
      (drawRestLines font x fill anc y ls).length = ls.length
  | [], _ => rfl
  | l :: rest, y => by
    simp [drawRestLines, drawRestLines_length font x fill anc rest]

theorem drawRestLines_consecutive (font : Font) (x : Int) (fill anc : String)
    (ls : List String) :
    ∀ (y0 : Int) (i : Nat) (op op' : DrawOp) (l : String),
      (drawRestLines font x fill anc y0 ls)[i]? = some op →
      (drawRestLines font x fill anc y0 ls)[i + 1]? = some op' →
      ls[i + 1]? = some l →
      op' = DrawOp.text (x, op.yPos + (font.bboxH l : Int)) l fill anc := by
  induction ls with
  | nil => intro y0 i op op' l h1 _ _; simp [drawRestLines] at h1
  | cons l1 ls' ih =>
    intro y0 i op op' l h1 h2 h3
    match i with
    | 0 =>
      cases ls' with
      | nil => simp [drawRestLines] at h2
      | cons l2 ls'' =>
        simp only [drawRestLines, List.getElem?_cons_zero,
          List.getElem?_cons_succ] at h1 h2 h3
        injection h1 with h1
        injection h2 with h2
        injection h3 with h3
        subst h1
        subst h2
        subst h3
        simp [DrawOp.yPos]
    | Nat.succ j =>
      simp only [drawRestLines, List.getElem?_cons_succ] at h1 h2 h3
      exact ih (y0 + (font.bboxH l1 : Int)) j op op' l h1 h2 h3

theorem insertByKey_ne_nil (a : String) : ∀ l : List String, insertByKey a l ≠ []
  | [] => by simp [insertByKey]
  | b :: l => by
    unfold insertByKey
    by_cases h : extKey a ≤ extKey b
    · simp [h]
    · rw [if_neg h]
      simp

theorem mem_insertByKey {x a : String} :
    ∀ {l : List String}, x ∈ insertByKey a l → x = a ∨ x ∈ l := by
  intro l
  induction l with
  | nil => intro h; simp [insertByKey] at h; exact Or.inl h
  | cons b l' ih =>
    intro h
    unfold insertByKey at h
    by_cases hk : extKey a ≤ extKey b
    · rw [if_pos hk] at h
      rcases List.mem_cons.mp h with h | h
      · exact Or.inl h
      · exact Or.inr h
    · rw [if_neg hk] at h
      rcases List.mem_cons.mp h with h | h
      · exact Or.inr (List.mem_cons.mpr (Or.inl h))
      · rcases ih h with h' | h'
        · exact Or.inl h'
        · exact Or.inr (List.mem_cons.mpr (Or.inr h'))

theorem sortByKey_eq_nil : ∀ {l : List String}, sortByKey l = [] → l = []
  | [], _ => rfl
  | a :: l, h => absurd h (insertByKey_ne_nil a (sortByKey l))

theorem mem_sortByKey {x : String} :
    ∀ {l : List String}, x ∈ sortByKey l → x ∈ l := by
  intro l
  induction l with
  | nil => intro h; simp [sortByKey] at h
  | cons a l' ih =>
    intro h
    unfold sortByKey at h
    rcases mem_insertByKey h with h' | h'
    · exact List.mem_cons.mpr (Or.inl h')
    · exact List.mem_cons.mpr (Or.inr (ih h'))

theorem sortByKey_head_min :
    ∀ (l : List String) (p : String) (t : List String),
      sortByKey l = p :: t → ∀ x ∈ l, extKey p ≤ extKey x := by
  intro l
  induction l with
  | nil => intro p t h; simp [sortByKey] at h
  | cons a l' ih =>
    intro p t h x hx
    unfold sortByKey at h
    cases hs : sortByKey l' with
    | nil =>
      have hl' : l' = [] := sortByKey_eq_nil hs
      rw [hs] at h
      simp only [insertByKey, List.cons.injEq] at h
      rcases h with ⟨h1, _⟩
      subst h1
      rcases List.mem_cons.mp hx with hxa | hxl
      · subst hxa; exact Nat.le_refl _
      · rw [hl'] at hxl; simp at hxl
    | cons b t' =>
      rw [hs] at h
      unfold insertByKey at h
      by_cases hk : extKey a ≤ extKey b
      · rw [if_pos hk] at h
        injection h with h1 _
        subst h1
        rcases List.mem_cons.mp hx with hxa | hxl
        · subst hxa; exact Nat.le_refl _
        · exact le_trans hk (ih b t' hs x hxl)
      · rw [if_neg hk] at h
        injection h with h1 _
        subst h1
        rcases List.mem_cons.mp hx with hxa | hxl
        · subst hxa; exact le_of_not_le hk
        · exact ih b t' hs x hxl

theorem reshape_of_no_rtl (s : String)
    (h : ∀ c ∈ s.toList, isRTLChar c = false) : reshape s = s := by
  unfold reshape
  have hmap : s.toList.map (fun c => if isRTLChar c then presentationForm c else c)
      = s.toList.map id := by
    apply List.map_congr_left
    intro a ha
    simp [h a ha]
  rw [hmap, List.map_id, string_mk_toList]

theorem get_display_of_no_rtl (s : String)
    (h : ∀ c ∈ s.toList, isRTLChar c = false) : get_display s = s := by
  have hany : s.toList.any isRTLChar = false :=
    List.any_eq_false.mpr (fun x hx => by simp [h x hx])
  unfold get_display
  rw [hany]
  simp

theorem reshape_length (s : String) : (reshape s).length = s.length := by
  unfold reshape
  rw [string_length_mk, List.length_map]
  rfl

theorem get_display_length (s : String) : (get_display s).length = s.length := by
  unfold get_display
  by_cases h : s.toList.any isRTLChar
  · rw [if_pos h, string_length_mk, List.length_reverse]
    rfl
  · rw [if_neg h]

theorem string_length_pos_of_ne {s : String} (h : s ≠ "") : 0 < s.length := by
  rcases s with ⟨data⟩
  cases data with
  | nil => exact absurd rfl h
  | cons c cs => simp [String.length]

theorem prepare_text_some (s : String) :
    prepare_text (some s) = if s = "" then "" else get_display (reshape s) := rfl

theorem prepare_text_length_pos (s : String) (h : s ≠ "") :
    0 < (prepare_text (some s)).length := by
  rw [prepare_text_some, if_neg h, get_display_length, reshape_length]
  exact string_length_pos_of_ne h

theorem runBatch_template (env : Env) :
    ∀ (rows : List Record) (s : BatchState),
      (runBatch env s rows).template = s.template
  | [], _ => rfl
  | r :: rs, s => by
    rw [runBatch, runBatch_template env rs]
    rfl

theorem runBatch_cards (env : Env) :
    ∀ (rows : List Record) (s : BatchState),
      (runBatch env s rows).cards
        = s.cards ++ rows.map (fun r => (renderCard env s.template r).1)
  | [], s => by simp [runBatch]
  | r :: rs, s => by
    rw [runBatch, runBatch_cards env rs]
    simp [processRow, List.append_assoc]

theorem photoBlock_appends (env : Env) (card : Img) (n f : String) :
    ∃ more, (photoBlock env card n f).1 = { card with ops := card.ops ++ more } := by
  cases h1 : env.photos_root with
  | none => exact ⟨[], by simp [photoBlock, h1]⟩
  | some files =>
    cases h2 : find_photo_path files f with
    | none => exact ⟨[], by simp [photoBlock, h1, h2]⟩
    | some p =>
      cases h3 : env.pathExists p with
      | false => exact ⟨[], by simp [photoBlock, h1, h2, h3]⟩
      | true =>
        cases h4 : env.openImage p with
        | error e => exact ⟨[], by simp [photoBlock, h1, h2, h3, h4]⟩
        | ok pimg0 =>
          cases h5 : resize_and_center_crop pimg0 PHOTO_SIZE with
          | error e => exact ⟨[], by simp [photoBlock, h1, h2, h3, h4, h5]⟩
          | ok pimg =>
            exact ⟨[DrawOp.paste pimg PHOTO_POS],
              by simp [photoBlock, h1, h2, h3, h4, h5]⟩

theorem barcodeBlock_appends (env : Env) (card : Img) (n nid : String) :
    ∃ more, (barcodeBlock env card n nid).1 = { card with ops := card.ops ++ more } := by
  by_cases h1 : nid = ""
  · exact ⟨[], by simp [barcodeBlock, h1]⟩
  · cases h2 : barcodePipeline env nid with
    | error e => exact ⟨[], by simp [barcodeBlock, h1, h2]⟩
    | ok bimg =>
      exact ⟨[DrawOp.paste bimg BARCODE_POS], by simp [barcodeBlock, h1, h2]⟩

theorem compose_appends (env : Env) (t : Img) (ops0 : List DrawOp)
    (n f nid : String) :
    ∃ more,
      (barcodeBlock env (photoBlock env { t with ops := t.ops ++ ops0 } n f).1 n nid).1
        = { t with ops := t.ops ++ more } := by
  obtain ⟨m1, hm1⟩ := photoBlock_appends env { t with ops := t.ops ++ ops0 } n f
  obtain ⟨m2, hm2⟩ :=
    barcodeBlock_appends env (photoBlock env { t with ops := t.ops ++ ops0 } n f).1 n nid
  refine ⟨ops0 ++ m1 ++ m2, ?_⟩
  rw [hm2, hm1]
  simp [List.append_assoc]

theorem renderCard_appends (env : Env) (t : Img) (r : Record) :
    ∃ more, (renderCard env t r).1 = { t with ops := t.ops ++ more } := by
  dsimp only [renderCard]
  exact compose_appends env t _ _ _ _

theorem runBatch_cards_init (env : Env) (t : Img) (rows : List Record) :
    (runBatch env ⟨t, [], []⟩ rows).cards
      = rows.map (fun r => (renderCard env t r).1) := by
  have h := runBatch_cards env rows ⟨t, [], []⟩
  simpa using h

theorem cover_mul_le_ideal (iw ih tw th : ℕ) (hiw : 0 < iw) (hih : 0 < ih) :
    (tw : ℚ) ≤ (iw : ℚ) * coverScaleIdeal iw ih tw th ∧
    (th : ℚ) ≤ (ih : ℚ) * coverScaleIdeal iw ih tw th := by
  have hiw0 : ((iw : ℚ)) ≠ 0 := Nat.cast_ne_zero.mpr hiw.ne'
  have hih0 : ((ih : ℚ)) ≠ 0 := Nat.cast_ne_zero.mpr hih.ne'
  constructor
  · have h1 : (tw : ℚ) / (iw : ℚ) ≤ coverScaleIdeal iw ih tw th := by
      unfold coverScaleIdeal; exact le_max_left _ _
    have h2 : (iw : ℚ) * ((tw : ℚ) / (iw : ℚ)) ≤ (iw : ℚ) * coverScaleIdeal iw ih tw th :=
      mul_le_mul_of_nonneg_left h1 (by positivity)
    have h3 : (iw : ℚ) * ((tw : ℚ) / (iw : ℚ)) = (tw : ℚ) := by field_simp
    linarith
  · have h1 : (th : ℚ) / (ih : ℚ) ≤ coverScaleIdeal iw ih tw th := by
      unfold coverScaleIdeal; exact le_max_right _ _
    have h2 : (ih : ℚ) * ((th : ℚ) / (ih : ℚ)) ≤ (ih : ℚ) * coverScaleIdeal iw ih tw th :=
      mul_le_mul_of_nonneg_left h1 (by positivity)
    have h3 : (ih : ℚ) * ((th : ℚ) / (ih : ℚ)) = (th : ℚ) := by field_simp
    linarith

theorem target_le_coverNew_ideal (iw ih tw th : ℕ) (hiw : 0 < iw) (hih : 0 < ih) :
    (tw : ℤ) ≤ coverNewWIdeal iw ih tw th ∧ (th : ℤ) ≤ coverNewHIdeal iw ih tw th := by
  obtain ⟨h1, h2⟩ := cover_mul_le_ideal iw ih tw th hiw hih
  constructor
  · have hq : (0 : ℚ) ≤ (iw : ℚ) * coverScaleIdeal iw ih tw th :=
      le_trans (by positivity) h1
    unfold coverNewWIdeal pyInt
    rw [if_pos hq, Int.le_floor]
    push_cast
    exact h1
  · have hq : (0 : ℚ) ≤ (ih : ℚ) * coverScaleIdeal iw ih tw th :=
      le_trans (by positivity) h2
    unfold coverNewHIdeal pyInt
    rw [if_pos hq, Int.le_floor]
    push_cast
    exact h2

theorem crop_offsets_bounds_ideal (iw ih tw th : ℕ) (hiw : 0 < iw) (hih : 0 < ih) :
    0 ≤ cropLeftIdeal iw ih tw th ∧
    cropLeftIdeal iw ih tw th + tw ≤ coverNewWIdeal iw ih tw th ∧
    0 ≤ cropTopIdeal iw ih tw th ∧
    cropTopIdeal iw ih tw th + th ≤ coverNewHIdeal iw ih tw th := by
  obtain ⟨h1, h2⟩ := target_le_coverNew_ideal iw ih tw th hiw hih
  have hw : (0 : ℤ) ≤ coverNewWIdeal iw ih tw th - tw := by linarith
  have hh : (0 : ℤ) ≤ coverNewHIdeal iw ih tw th - th := by linarith
  unfold cropLeftIdeal cropTopIdeal
  rw [Int.fdiv_eq_ediv _ (by norm_num), Int.fdiv_eq_ediv _ (by norm_num)]
  refine ⟨Int.ediv_nonneg hw (by norm_num), ?_, Int.ediv_nonneg hh (by norm_num), ?_⟩
  · have := Int.ediv_le_self 2 hw
    linarith
  · have := Int.ediv_le_self 2 hh
    linarith

/-! ### The claims -/

/-- C1: for every environment — hence every pattern of photo-resolution,
photo-read and barcode failures — and every record list, the batch result holds
exactly one card per input record, and each card is a function of its own
record and the template only, so a failure in the photo or barcode block of one
record neither prevents that record's card from being appended nor affects any
other record's card. -/
theorem card_per_record_isolation (env : Env) (t : Img) (rows : List Record) :
    (runBatch env ⟨t, [], []⟩ rows).cards
        = rows.map (fun r => (renderCard env t r).1) ∧
    (runBatch env ⟨t, [], []⟩ rows).cards.length = rows.length := by
  have h := runBatch_cards_init env t rows
  exact ⟨h, by rw [h, List.length_map]⟩

/-- C2: the claim — and the code's own cover comment — ask for crop bounds
inside the scaled image and a result with no padded border, and in exact
arithmetic the offsets would satisfy that (crop_offsets_bounds_ideal); but the
program computes the scale in IEEE doubles, and at a 2401 by 2401 source with
a 49 by 49 target the float product 2401 * (49 / 2401) rounds to just below
49, int() truncates it to 48, and both crop offsets evaluate to -1: the crop
box leaves the scaled image on every side and PIL fills the missing border, so
the stated no-padding property fails on this input while the ideal
exact-arithmetic geometry gives 49 and offset 0. -/
theorem cover_fit_float_underflow :
    coverNewW 2401 2401 49 49 = 48 ∧ coverNewH 2401 2401 49 49 = 48 ∧
    cropLeft 2401 2401 49 49 = -1 ∧ cropTop 2401 2401 49 49 = -1 ∧
    cropLeft 2401 2401 49 49 < 0 ∧
    coverNewWIdeal 2401 2401 49 49 = 49 ∧ cropLeftIdeal 2401 2401 49 49 = 0 := by
  have hsc : coverScaleIdeal 2401 2401 49 49 = (49 : ℚ) / 2401 := by
    unfold coverScaleIdeal
    norm_num
  have hW : coverNewWIdeal 2401 2401 49 49 = 49 := by
    unfold coverNewWIdeal
    rw [hsc]
    have hv : ((2401 : ℕ) : ℚ) * ((49 : ℚ) / 2401) = ((49 : ℤ) : ℚ) := by
      push_cast
      norm_num
    unfold pyInt
    rw [hv, if_pos (by norm_num), Int.floor_intCast]
  refine ⟨by decide, by decide, by decide, by decide, by decide, hW, ?_⟩
  unfold cropLeftIdeal
  rw [hW]
  norm_num

/-- C3 (amended): in draw_aligned_text each line after the first is drawn at a
y-coordinate advanced from the previously drawn line's y-coordinate by the
measured glyph bounding-box height of the line about to be drawn — its own
height — not by the previous line's height and not by a fixed line height; the
first line sits at the anchor and one draw call is issued per split line. -/
theorem draw_aligned_text_stacks_by_own_height (font : Font) (x y : Int)
    (text fill anc : String) (h : text ≠ "") :
    (draw_aligned_text font (x, y) text fill anc).length = (pySplitNl text).length ∧
    (∀ l0 rest, pySplitNl text = l0 :: rest →
      (draw_aligned_text font (x, y) text fill anc)[0]?
        = some (DrawOp.text (x, y) l0 fill anc)) ∧
    ∀ i op op' l,
      (draw_aligned_text font (x, y) text fill anc)[i]? = some op →
      (draw_aligned_text font (x, y) text fill anc)[i + 1]? = some op' →
      (pySplitNl text)[i + 1]? = some l →
      op' = DrawOp.text (x, op.yPos + (font.bboxH l : Int)) l fill anc := by
  unfold draw_aligned_text
  rw [if_neg h]
  cases hp : pySplitNl text with
  | nil => exact absurd hp (pySplitNl_ne_nil text)
  | cons l0 rest =>
    refine ⟨by simp [drawRestLines_length], ?_, ?_⟩
    · intro l0' rest' heq
      injection heq with he1 _
      subst he1
      simp
    · intro i op op' l h1 h2 h3
      match i with
      | 0 =>
        cases rest with
        | nil => simp [drawRestLines] at h2
        | cons l1 rest' =>
          simp only [drawRestLines, List.getElem?_cons_zero,
            List.getElem?_cons_succ] at h1 h2 h3
          injection h1 with h1
          injection h2 with h2
          injection h3 with h3
          subst h1
          subst h2
          subst h3
          simp [DrawOp.yPos]
      | Nat.succ j =>
        simp only [List.getElem?_cons_succ] at h1 h2 h3
        exact drawRestLines_consecutive font x fill anc rest y j op op' l h1 h2 h3

/-- Witness for C3's amended theorem at a concrete font and a two-line text. -/
theorem draw_aligned_text_stacks_by_own_height_witness :
    ("a\nb" ≠ "") ∧
    ((draw_aligned_text fontEx (0, 0) "a\nb" "black" "rt").length
        = (pySplitNl "a\nb").length ∧
      (∀ l0 rest, pySplitNl "a\nb" = l0 :: rest →
        (draw_aligned_text fontEx (0, 0) "a\nb" "black" "rt")[0]?
          = some (DrawOp.text (0, 0) l0 "black" "rt")) ∧
      ∀ i op op' l,
        (draw_aligned_text fontEx (0, 0) "a\nb" "black" "rt")[i]? = some op →
        (draw_aligned_text fontEx (0, 0) "a\nb" "black" "rt")[i + 1]? = some op' →
        (pySplitNl "a\nb")[i + 1]? = some l →
        op' = DrawOp.text (0, op.yPos + (fontEx.bboxH l : Int)) l "black" "rt") :=
  ⟨by decide,
    draw_aligned_text_stacks_by_own_height fontEx 0 0 "a\nb" "black" "rt" (by decide)⟩

/-- C3 counterexample: with a font measuring line "a" at height 10 and line "b"
at height 20, the second line of the two-line text is drawn at y = 20 —
advanced by its own measured height — and not at y = 10 as the claim's
previous-line rule states. -/
theorem draw_aligned_text_prev_height_false :
    fontEx.bboxH "a" = 10 ∧ fontEx.bboxH "b" = 20 ∧
    draw_aligned_text fontEx (0, 0) "a\nb" "black" "rt"
      = [DrawOp.text (0, 0) "a" "black" "rt", DrawOp.text (0, 20) "b" "black" "rt"] ∧
    draw_aligned_text fontEx (0, 0) "a\nb" "black" "rt"
      ≠ [DrawOp.text (0, 0) "a" "black" "rt", DrawOp.text (0, 10) "b" "black" "rt"] :=
  ⟨by decide, by decide, by decide, by decide⟩

/-- C4: whenever find_photo_path returns a path, that path is one of the
stem-matching candidates and its extension priority — png before jpg before
jpeg before bmp before anything else — is minimal among all candidates; the
result is a function of the walked file list, hence deterministic. -/
theorem find_photo_path_priority (files : List FileEntry) (requested p : String)
    (h : find_photo_path files requested = some p) :
    p ∈ photoCandidates files requested ∧
    ∀ q ∈ photoCandidates files requested, extKey p ≤ extKey q := by
  unfold find_photo_path at h
  by_cases hr : requested = ""
  · rw [if_pos hr] at h
    exact absurd h (by simp)
  · rw [if_neg hr] at h
    cases hs : sortByKey (photoCandidates files requested) with
    | nil => rw [hs] at h; exact absurd h (by simp)
    | cons c t =>
      rw [hs] at h
      injection h with hcp
      subst hcp
      constructor
      · exact mem_sortByKey (by rw [hs]; exact List.mem_cons_self c t)
      · exact sortByKey_head_min _ c t hs

/-- Witness for C4: with photo.jpg and photo.png sharing the stem "photo" under
the same root, the resolver returns the png path, a candidate of minimal
extension priority. -/
theorem find_photo_path_priority_witness :
    find_photo_path filesEx "photo" = some "root/photo.png" ∧
    ("root/photo.png" ∈ photoCandidates filesEx "photo" ∧
      ∀ q ∈ photoCandidates filesEx "photo", extKey "root/photo.png" ≤ extKey q) :=
  ⟨by decide, find_photo_path_priority filesEx "photo" "root/photo.png" (by decide)⟩

/-- C5: for a non-empty batch, the batch result lists the cards in exactly the
input record order, and the export block's page sequence is exactly the batch
result (page one is the first card, the appended pages are the rest). -/
theorem batch_order_preserved (env : Env) (t : Img) (rows : List Record)
    (h : 0 < rows.length) :
    (runBatch env ⟨t, [], []⟩ rows).cards
        = rows.map (fun r => (renderCard env t r).1) ∧
    exportBlock (runBatch env ⟨t, [], []⟩ rows).cards
        = ExportOutcome.artifact ((runBatch env ⟨t, [], []⟩ rows).cards) := by
  have hc := runBatch_cards_init env t rows
  refine ⟨hc, ?_⟩
  cases rows with
  | nil => simp at h
  | cons r rs =>
    rw [hc]
    simp [exportBlock]

/-- Witness for C5 on a one-record batch in the concrete environment. -/
theorem batch_order_preserved_witness :
    0 < ([recEx] : List Record).length ∧
    ((runBatch envEx ⟨tmplEx, [], []⟩ [recEx]).cards
        = [recEx].map (fun r => (renderCard envEx tmplEx r).1) ∧
      exportBlock (runBatch envEx ⟨tmplEx, [], []⟩ [recEx]).cards
        = ExportOutcome.artifact ((runBatch envEx ⟨tmplEx, [], []⟩ [recEx]).cards)) :=
  ⟨by decide, batch_order_preserved envEx tmplEx [recEx] (by decide)⟩

/-- C6: zero input records leave the batch result empty, and the export block
then produces no artifact and reports the condition as the warning value
"No cards generated." — a returned outcome, not an exception. -/
theorem empty_batch_reported (env : Env) (t : Img) :
    (runBatch env ⟨t, [], []⟩ ([] : List Record)).cards = [] ∧
    exportBlock (runBatch env ⟨t, [], []⟩ ([] : List Record)).cards
      = ExportOutcome.noCards "No cards generated." :=
  ⟨rfl, rfl⟩

/-- C7: prepare_text is the identity on strings containing no right-to-left
script characters and no bidirectional control characters, and empty or null
input yields the empty string without error. -/
theorem prepare_text_ltr_identity (s : String)
    (h : ∀ c ∈ s.toList, isRTLChar c = false ∧ isBidiControl c = false) :
    prepare_text (some s) = s ∧ prepare_text none = "" ∧
    prepare_text (some "") = "" := by
  refine ⟨?_, rfl, rfl⟩
  by_cases hs : s = ""
  · subst hs; rfl
  · rw [prepare_text_some, if_neg hs,
      reshape_of_no_rtl s (fun c hc => (h c hc).1),
      get_display_of_no_rtl s (fun c hc => (h c hc).1)]

/-- Witness for C7 on a pure left-to-right string of Latin letters, a space and
digits. -/
theorem prepare_text_ltr_identity_witness :
    (∀ c ∈ ("Employee 123").toList, isRTLChar c = false ∧ isBidiControl c = false) ∧
    (prepare_text (some "Employee 123") = "Employee 123" ∧
      prepare_text none = "" ∧ prepare_text (some "") = "") :=
  ⟨by decide, prepare_text_ltr_identity "Employee 123" (by decide)⟩

/-- C8: running the batch never changes the shared template — same descriptor,
same size, same operation log — and every card is the template value with the
record's new operations appended to a fresh copy of it. -/
theorem template_never_mutated (env : Env) (s : BatchState) (rows : List Record) :
    (runBatch env s rows).template = s.template ∧
    ∀ r : Record, ∃ more,
      (renderCard env s.template r).1
        = { s.template with ops := s.template.ops ++ more } :=
  ⟨runBatch_template env rows s, fun r => renderCard_appends env s.template r⟩

/-- C9: if the barcode pipeline fails at any stage — Code128 construction,
writing to the buffer, or decoding the produced image — the barcode block
returns the card exactly as it received it: the paste is issued only on a fully
produced, resized barcode image, so no partially drawn barcode is composited. -/
theorem barcode_failure_atomic (env : Env) (card : Img) (rawName nid e : String)
    (h : barcodePipeline env nid = Except.error e) :
    (barcodeBlock env card rawName nid).1 = card := by
  unfold barcodeBlock
  by_cases hn : nid = ""
  · rw [if_pos hn]
  · rw [if_neg hn, h]

/-- Witness for C9: the Code128 constructor rejects the Arabic identifier, and
the card comes back from the barcode block unchanged. -/
theorem barcode_failure_atomic_witness :
    barcodePipeline envEx "رقم" = Except.error "character not in Code 128" ∧
    (barcodeBlock envEx cardEx "احمد" "رقم").1 = cardEx :=
  ⟨rfl, barcode_failure_atomic envEx cardEx "احمد" "رقم" "character not in Code 128" rfl⟩

/-- C10: the composed employee-number label is non-empty for every value of the
number field — the Arabic prefix alone makes it so — hence its draw pass always
issues at least one draw call, whereas the aligned and bold draw passes used for
the name and job-title blocks are no-ops on empty text. -/
theorem employee_number_line_always_drawn (font : Font) (xy : Int × Int)
    (num : String) :
    0 < (prepare_text (some ("الرقم الوظيفي: " ++ num))).length ∧
    0 < (draw_aligned_text font xy (prepare_text (some ("الرقم الوظيفي: " ++ num)))
          "black" "rt").length ∧
    draw_aligned_text font xy "" "black" "rt" = [] ∧
    draw_bold_text font xy "" "black" "rt" = [] := by
  have hne : ("الرقم الوظيفي: " ++ num) ≠ "" := by
    apply string_ne_empty_of_length_pos
    rw [String.length_append]
    have hp : 0 < ("الرقم الوظيفي: ").length := by decide
    omega
  have hlen := prepare_text_length_pos _ hne
  refine ⟨hlen, ?_, ?_, ?_⟩
  · exact draw_aligned_text_length_pos font xy _ "black" "rt"
      (string_ne_empty_of_length_pos hlen)
  · simp [draw_aligned_text]
  · simp [draw_bold_text, draw_aligned_text]

end HRCards
